import Mathlib

/-!
Verification of the Intcode interpreter of `src/day_05_intcode_io/intcode.rs`.

The Rust code is shallowly embedded: memory is a `List Int` (Rust `&mut [i64]`,
with cells modelled as unbounded integers), Rust panics (index out of bounds,
exhausted input iterator, unknown opcode) are modelled as explicit failure
results, `i64` truncating division/remainder is `Int.tdiv`/`Int.tmod`, the
`as u8` cast is reduction modulo 256, and the `as usize` cast is reduction
modulo 2^64.  The fetch-decode-execute loop `interpret` becomes a step
function `step` iterated by a fuel-indexed runner `run`.
-/

namespace Intcode

/-- Rust `x as u8` on an `i64` value: the low 8 bits, i.e. `x mod 256`. -/
def castU8 (x : Int) : Nat := (x % 256).toNat

/-- Rust `x as usize` on an `i64` value: `x mod 2^64`. -/
def toUsize (x : Int) : Nat := (x % (2 ^ 64 : Int)).toNat

/-- Rust `enum ParameterType` from the source. -/
inductive ParameterType where
  | Position
  | Immediate
deriving DecidableEq, Repr

/-- Rust `ParameterType::from(digit)`: `1 => Immediate, _ => Position`.
(`from` is a Lean keyword, hence the name `ofDigit`.) -/
def ParameterType.ofDigit (digit : Nat) : ParameterType :=
  if digit = 1 then ParameterType.Immediate else ParameterType.Position

/-- Rust `struct Instruction` from the source. -/
structure Instruction where
  opcode : Nat
  param1 : ParameterType
  param2 : ParameterType
  param3 : ParameterType
deriving DecidableEq, Repr

/-- Rust `get_digits(n)`: `[(n/10000%10) as u8, (n/1000%10) as u8, (n/100%10) as u8,
(n/1%100) as u8]`, with Rust truncating `/` and `%` on `i64`. -/
def get_digits (n : Int) : Nat × Nat × Nat × Nat :=
  (castU8 ((n.tdiv 10000).tmod 10),
   castU8 ((n.tdiv 1000).tmod 10),
   castU8 ((n.tdiv 100).tmod 10),
   castU8 ((n.tdiv 1).tmod 100))

/-- Rust `parse_instruction(value)` from the source. -/
def parse_instruction (value : Int) : Instruction :=
  match get_digits value with
  | (param3, param2, param1, opcode) =>
    { opcode := opcode
      param1 := ParameterType.ofDigit param1
      param2 := ParameterType.ofDigit param2
      param3 := ParameterType.ofDigit param3 }

/-- Rust `lookup(memory, address, parameter_type)`.  Rust indexing panics out of
bounds; here an out-of-bounds access (of the parameter slot or, in position
mode, of the dereferenced pointer after the `as usize` cast) yields `none`. -/
def lookup (memory : List Int) (address : Nat) (parameter_type : ParameterType) :
    Option Int :=
  match parameter_type with
  | ParameterType.Position =>
    match memory[address]? with
    | some lvalue => memory[toUsize lvalue]?
    | none => none
  | ParameterType.Immediate => memory[address]?

/-- Rust `set(memory, address, value)`: reads `memory[address]`, casts it to
`usize`, and writes `value` there; `none` on either out-of-bounds access. -/
def set (memory : List Int) (address : Nat) (value : Int) : Option (List Int) :=
  match memory[address]? with
  | some lvalue =>
    if toUsize lvalue < memory.length then
      some (memory.set (toUsize lvalue) value)
    else none
  | none => none

/-- The fatal conditions of a run: the three panic sites of `interpret`. -/
inductive Err where
  | inputExhausted
  | unknownOpcode
  | outOfBounds
deriving DecidableEq, Repr

/-- The interpreter state: the mutable slice, the instruction pointer, the
remaining input iterator and the accumulated output vector. -/
structure State where
  memory : List Int
  ip : Nat
  input : List Int
  output : List Int
deriving DecidableEq, Repr

/-- Result of executing one instruction. -/
inductive StepRes where
  | next (s : State)
  | halt
  | fail (e : Err)
deriving DecidableEq, Repr

/-- The body of the `match opcode` in `interpret`, for an already-parsed
instruction.  Mirrors the source's evaluation order: for opcode 3 the input
iterator is consumed before `set` runs; for opcodes 5/6 the second operand is
only resolved when the branch is taken. -/
def execInstr (i : Instruction) (s : State) : StepRes :=
  match i.opcode with
  | 1 =>
    match lookup s.memory (s.ip + 1) i.param1, lookup s.memory (s.ip + 2) i.param2 with
    | some p1, some p2 =>
      match set s.memory (s.ip + 3) (p1 + p2) with
      | some memory => StepRes.next { s with memory := memory, ip := s.ip + 4 }
      | none => StepRes.fail Err.outOfBounds
    | _, _ => StepRes.fail Err.outOfBounds
  | 2 =>
    match lookup s.memory (s.ip + 1) i.param1, lookup s.memory (s.ip + 2) i.param2 with
    | some p1, some p2 =>
      match set s.memory (s.ip + 3) (p1 * p2) with
      | some memory => StepRes.next { s with memory := memory, ip := s.ip + 4 }
      | none => StepRes.fail Err.outOfBounds
    | _, _ => StepRes.fail Err.outOfBounds
  | 3 =>
    match s.input with
    | [] => StepRes.fail Err.inputExhausted
    | value :: rest =>
      match set s.memory (s.ip + 1) value with
      | some memory =>
        StepRes.next { s with memory := memory, ip := s.ip + 2, input := rest }
      | none => StepRes.fail Err.outOfBounds
  | 4 =>
    match lookup s.memory (s.ip + 1) i.param1 with
    | some value =>
      StepRes.next { s with output := s.output ++ [value], ip := s.ip + 2 }
    | none => StepRes.fail Err.outOfBounds
  | 5 =>
    match lookup s.memory (s.ip + 1) i.param1 with
    | some p1 =>
      if p1 ≠ 0 then
        match lookup s.memory (s.ip + 2) i.param2 with
        | some target => StepRes.next { s with ip := toUsize target }
        | none => StepRes.fail Err.outOfBounds
      else StepRes.next { s with ip := s.ip + 3 }
    | none => StepRes.fail Err.outOfBounds
  | 6 =>
    match lookup s.memory (s.ip + 1) i.param1 with
    | some p1 =>
      if p1 = 0 then
        match lookup s.memory (s.ip + 2) i.param2 with
        | some target => StepRes.next { s with ip := toUsize target }
        | none => StepRes.fail Err.outOfBounds
      else StepRes.next { s with ip := s.ip + 3 }
    | none => StepRes.fail Err.outOfBounds
  | 7 =>
    match lookup s.memory (s.ip + 1) i.param1, lookup s.memory (s.ip + 2) i.param2 with
    | some p1, some p2 =>
      match set s.memory (s.ip + 3) (if p1 < p2 then 1 else 0) with
      | some memory => StepRes.next { s with memory := memory, ip := s.ip + 4 }
      | none => StepRes.fail Err.outOfBounds
    | _, _ => StepRes.fail Err.outOfBounds
  | 8 =>
    match lookup s.memory (s.ip + 1) i.param1, lookup s.memory (s.ip + 2) i.param2 with
    | some p1, some p2 =>
      match set s.memory (s.ip + 3) (if p1 = p2 then 1 else 0) with
      | some memory => StepRes.next { s with memory := memory, ip := s.ip + 4 }
      | none => StepRes.fail Err.outOfBounds
    | _, _ => StepRes.fail Err.outOfBounds
  | 99 => StepRes.halt
  | _ => StepRes.fail Err.unknownOpcode

/-- One iteration of the loop in `interpret`: fetch `memory[ip]` (panicking,
i.e. failing, if `ip` is out of bounds), decode, execute. -/
def step (s : State) : StepRes :=
  match s.memory[s.ip]? with
  | some cell => execInstr (parse_instruction cell) s
  | none => StepRes.fail Err.outOfBounds

/-- Result of a whole run. -/
inductive RunRes where
  | ok (output : List Int) (final : State)
  | fail (e : Err) (at_ : State)
  | timeout (s : State)
deriving DecidableEq, Repr

/-- The loop of `interpret`, iterated with fuel (the Rust loop has no fuel;
`timeout` marks runs longer than the supplied fuel, never an outcome of the
Rust code). -/
def run (fuel : Nat) (s : State) : RunRes :=
  match fuel with
  | 0 => RunRes.timeout s
  | fuel + 1 =>
    match step s with
    | StepRes.next s' => run fuel s'
    | StepRes.halt => RunRes.ok s.output s
    | StepRes.fail e => RunRes.fail e s

/-- The state after `n` successfully executed instructions, if the run gets
that far without halting or failing. -/
def trace (n : Nat) (s : State) : Option State :=
  match n with
  | 0 => some s
  | n + 1 =>
    match step s with
    | StepRes.next s' => trace n s'
    | _ => none

/-- The initial state of `interpret(memory, answers)`. -/
def initState (memory : List Int) (answers : List Int) : State :=
  { memory := memory, ip := 0, input := answers, output := [] }

/-- Rust `interpret(memory, answers)`, fuelled. -/
def interpret (fuel : Nat) (memory : List Int) (answers : List Int) : RunRes :=
  run fuel (initState memory answers)

/-- The opcode of the cell at the instruction pointer, when it exists. -/
def curOpcode (s : State) : Option Nat :=
  match s.memory[s.ip]? with
  | some cell => some (parse_instruction cell).opcode
  | none => none

/-- The output of a completed run of `interpret`, `none` if it fails or runs
out of fuel. -/
def runOutput (fuel : Nat) (memory : List Int) (answers : List Int) :
    Option (List Int) :=
  match interpret fuel memory answers with
  | RunRes.ok output _ => some output
  | _ => none

/-- The 47-cell compare-to-8 program from the source's `test_new_instructions`. -/
def COMPARE_8 : List Int :=
  [3, 21, 1008, 21, 8, 20, 1005, 20, 22, 107, 8, 21, 20, 1006, 20, 31, 1106, 0,
   36, 98, 0, 0, 1002, 21, 125, 20, 4, 20, 1105, 1, 46, 104, 999, 1105, 1, 46,
   1101, 1000, 1, 20, 4, 20, 1105, 1, 46, 98, 99]

/-- A run from `s` whose executed instructions all have opcode 1, 2 or 99 and
never fail (all resolved addresses in bounds). -/
def GoodRun (s : State) : Prop :=
  ∀ (k : Nat) (s' : State), trace k s = some s' →
    (curOpcode s' = some 1 ∨ curOpcode s' = some 2 ∨ curOpcode s' = some 99) ∧
    ∀ e, step s' ≠ StepRes.fail e

lemma castU8_eq_toNat {x : Int} (h0 : 0 ≤ x) (h : x < 256) : castU8 x = x.toNat := by
  unfold castU8
  rw [Int.emod_eq_of_lt h0 h]

lemma step_eq (s : State) (c : Int) (h : s.memory[s.ip]? = some c) :
    step s = execInstr (parse_instruction c) s := by
  unfold step
  rw [h]

lemma step_oob (s : State) (h : s.memory[s.ip]? = none) :
    step s = StepRes.fail Err.outOfBounds := by
  unfold step
  rw [h]

lemma execInstr_one (i : Instruction) (s : State) (h : i.opcode = 1) :
    execInstr i s =
      (match lookup s.memory (s.ip + 1) i.param1, lookup s.memory (s.ip + 2) i.param2 with
      | some p1, some p2 =>
        match set s.memory (s.ip + 3) (p1 + p2) with
        | some memory => StepRes.next { s with memory := memory, ip := s.ip + 4 }
        | none => StepRes.fail Err.outOfBounds
      | _, _ => StepRes.fail Err.outOfBounds) := by
  unfold execInstr
  rw [h]

lemma execInstr_two (i : Instruction) (s : State) (h : i.opcode = 2) :
    execInstr i s =
      (match lookup s.memory (s.ip + 1) i.param1, lookup s.memory (s.ip + 2) i.param2 with
      | some p1, some p2 =>
        match set s.memory (s.ip + 3) (p1 * p2) with
        | some memory => StepRes.next { s with memory := memory, ip := s.ip + 4 }
        | none => StepRes.fail Err.outOfBounds
      | _, _ => StepRes.fail Err.outOfBounds) := by
  unfold execInstr
  rw [h]

lemma execInstr_three (i : Instruction) (s : State) (h : i.opcode = 3) :
    execInstr i s =
      (match s.input with
      | [] => StepRes.fail Err.inputExhausted
      | value :: rest =>
        match set s.memory (s.ip + 1) value with
        | some memory =>
          StepRes.next { s with memory := memory, ip := s.ip + 2, input := rest }
        | none => StepRes.fail Err.outOfBounds) := by
  unfold execInstr
  rw [h]

lemma execInstr_four (i : Instruction) (s : State) (h : i.opcode = 4) :
    execInstr i s =
      (match lookup s.memory (s.ip + 1) i.param1 with
      | some value =>
        StepRes.next { s with output := s.output ++ [value], ip := s.ip + 2 }
      | none => StepRes.fail Err.outOfBounds) := by
  unfold execInstr
  rw [h]

lemma execInstr_five (i : Instruction) (s : State) (h : i.opcode = 5) :
    execInstr i s =
      (match lookup s.memory (s.ip + 1) i.param1 with
      | some p1 =>
        if p1 ≠ 0 then
          match lookup s.memory (s.ip + 2) i.param2 with
          | some target => StepRes.next { s with ip := toUsize target }
          | none => StepRes.fail Err.outOfBounds
        else StepRes.next { s with ip := s.ip + 3 }
      | none => StepRes.fail Err.outOfBounds) := by
  unfold execInstr
  rw [h]

lemma execInstr_six (i : Instruction) (s : State) (h : i.opcode = 6) :
    execInstr i s =
      (match lookup s.memory (s.ip + 1) i.param1 with
      | some p1 =>
        if p1 = 0 then
          match lookup s.memory (s.ip + 2) i.param2 with
          | some target => StepRes.next { s with ip := toUsize target }
          | none => StepRes.fail Err.outOfBounds
        else StepRes.next { s with ip := s.ip + 3 }
      | none => StepRes.fail Err.outOfBounds) := by
  unfold execInstr
  rw [h]

lemma execInstr_seven (i : Instruction) (s : State) (h : i.opcode = 7) :
    execInstr i s =
      (match lookup s.memory (s.ip + 1) i.param1, lookup s.memory (s.ip + 2) i.param2 with
      | some p1, some p2 =>
        match set s.memory (s.ip + 3) (if p1 < p2 then 1 else 0) with
        | some memory => StepRes.next { s with memory := memory, ip := s.ip + 4 }
        | none => StepRes.fail Err.outOfBounds
      | _, _ => StepRes.fail Err.outOfBounds) := by
  unfold execInstr
  rw [h]

lemma execInstr_eight (i : Instruction) (s : State) (h : i.opcode = 8) :
    execInstr i s =
      (match lookup s.memory (s.ip + 1) i.param1, lookup s.memory (s.ip + 2) i.param2 with
      | some p1, some p2 =>
        match set s.memory (s.ip + 3) (if p1 = p2 then 1 else 0) with
        | some memory => StepRes.next { s with memory := memory, ip := s.ip + 4 }
        | none => StepRes.fail Err.outOfBounds
      | _, _ => StepRes.fail Err.outOfBounds) := by
  unfold execInstr
  rw [h]

lemma execInstr_halt (i : Instruction) (s : State) (h : i.opcode = 99) :
    execInstr i s = StepRes.halt := by
  unfold execInstr
  rw [h]

lemma set_eq_some {memory : List Int} {a : Nat} {v : Int} {m : List Int}
    (h : set memory a v = some m) :
    ∃ d, memory[a]? = some d ∧ toUsize d < memory.length ∧
      m = memory.set (toUsize d) v := by
  unfold set at h
  split at h
  · split at h
    · next d hd hb => exact ⟨d, hd, hb, (Option.some.inj h).symm⟩
    · exact Option.noConfusion h
  · exact Option.noConfusion h

lemma trace_step {s s' : State} (h : step s = StepRes.next s') (k : Nat) :
    trace (k + 1) s = trace k s' := by
  have e : trace (k + 1) s =
      (match step s with | StepRes.next u => trace k u | _ => none) := rfl
  rw [e, h]

lemma trace_succ_some {k : Nat} {s0 sf : State} (h : trace (k + 1) s0 = some sf) :
    ∃ s', step s0 = StepRes.next s' ∧ trace k s' = some sf := by
  unfold trace at h
  split at h
  · next s' hs => exact ⟨s', hs, h⟩
  · exact Option.noConfusion h

lemma step_fail_inputExhausted (s : State) :
    step s = StepRes.fail Err.inputExhausted ↔
      curOpcode s = some 3 ∧ s.input = [] := by
  unfold step curOpcode
  cases hcell : s.memory[s.ip]? with
  | none => simp
  | some c =>
    simp only [Option.some.injEq]
    unfold execInstr
    split <;> try split <;> try split <;> try split
    all_goals simp_all

lemma run_succ (n : Nat) (s : State) :
    run (n + 1) s =
      (match step s with
      | StepRes.next s' => run n s'
      | StepRes.halt => RunRes.ok s.output s
      | StepRes.fail e => RunRes.fail e s) := rfl

lemma run_succ_next {s s' : State} (h : step s = StepRes.next s') (n : Nat) :
    run (n + 1) s = run n s' := by
  rw [run_succ, h]

lemma run_succ_halt {s : State} (h : step s = StepRes.halt) (n : Nat) :
    run (n + 1) s = RunRes.ok s.output s := by
  rw [run_succ, h]

lemma run_succ_fail {s : State} {e : Err} (h : step s = StepRes.fail e) (n : Nat) :
    run (n + 1) s = RunRes.fail e s := by
  rw [run_succ, h]

lemma lt_of_getElem?_eq_some {l : List Int} {i : Nat} {a : Int}
    (h : l[i]? = some a) : i < l.length := by
  by_contra hn
  rw [List.getElem?_eq_none (by omega)] at h
  exact Option.noConfusion h

lemma curOpcode_eq_some {s : State} {op : Nat} (h : curOpcode s = some op) :
    ∃ c, s.memory[s.ip]? = some c ∧ (parse_instruction c).opcode = op := by
  unfold curOpcode at h
  split at h
  · next c hc => exact ⟨c, hc, by injection h⟩
  · exact Option.noConfusion h

lemma step_halt_of_op99 {s : State} {c : Int} (hc : s.memory[s.ip]? = some c)
    (hop : (parse_instruction c).opcode = 99) : step s = StepRes.halt := by
  rw [step_eq s c hc]
  exact execInstr_halt _ s hop

lemma step_addmul {s : State} {c : Int} (hc : s.memory[s.ip]? = some c)
    (hop : (parse_instruction c).opcode = 1 ∨ (parse_instruction c).opcode = 2)
    (hnf : ∀ e, step s ≠ StepRes.fail e) :
    ∃ s', step s = StepRes.next s' ∧ s'.ip = s.ip + 4 ∧
      s'.memory.length = s.memory.length := by
  rcases hop with h | h
  · cases hl1 : lookup s.memory (s.ip + 1) (parse_instruction c).param1 with
    | none =>
      exact absurd (by rw [step_eq s c hc, execInstr_one _ s h]; simp [hl1])
        (hnf Err.outOfBounds)
    | some p1 =>
      cases hl2 : lookup s.memory (s.ip + 2) (parse_instruction c).param2 with
      | none =>
        exact absurd (by rw [step_eq s c hc, execInstr_one _ s h]; simp [hl1, hl2])
          (hnf Err.outOfBounds)
      | some p2 =>
        cases hset : set s.memory (s.ip + 3) (p1 + p2) with
        | none =>
          exact absurd (by rw [step_eq s c hc, execInstr_one _ s h]; simp [hl1, hl2, hset])
            (hnf Err.outOfBounds)
        | some m =>
          refine ⟨{ s with memory := m, ip := s.ip + 4 },
            by rw [step_eq s c hc, execInstr_one _ s h]; simp [hl1, hl2, hset], rfl, ?_⟩
          obtain ⟨d, hd, hb, hm⟩ := set_eq_some hset
          simp [hm]
  · cases hl1 : lookup s.memory (s.ip + 1) (parse_instruction c).param1 with
    | none =>
      exact absurd (by rw [step_eq s c hc, execInstr_two _ s h]; simp [hl1])
        (hnf Err.outOfBounds)
    | some p1 =>
      cases hl2 : lookup s.memory (s.ip + 2) (parse_instruction c).param2 with
      | none =>
        exact absurd (by rw [step_eq s c hc, execInstr_two _ s h]; simp [hl1, hl2])
          (hnf Err.outOfBounds)
      | some p2 =>
        cases hset : set s.memory (s.ip + 3) (p1 * p2) with
        | none =>
          exact absurd (by rw [step_eq s c hc, execInstr_two _ s h]; simp [hl1, hl2, hset])
            (hnf Err.outOfBounds)
        | some m =>
          refine ⟨{ s with memory := m, ip := s.ip + 4 },
            by rw [step_eq s c hc, execInstr_two _ s h]; simp [hl1, hl2, hset], rfl, ?_⟩
          obtain ⟨d, hd, hb, hm⟩ := set_eq_some hset
          simp [hm]

lemma run_ok_of_good (n : Nat) (s : State) (good : GoodRun s)
    (hlen : s.memory.length ≤ s.ip + 4 * n) :
    ∃ out fin, run (n + 1) s = RunRes.ok out fin := by
  induction n generalizing s with
  | zero =>
    obtain ⟨hop, hnf⟩ := good 0 s rfl
    rcases hop with h | h | h
    · obtain ⟨c, hc, hco⟩ := curOpcode_eq_some h
      have := lt_of_getElem?_eq_some hc
      omega
    · obtain ⟨c, hc, hco⟩ := curOpcode_eq_some h
      have := lt_of_getElem?_eq_some hc
      omega
    · obtain ⟨c, hc, hco⟩ := curOpcode_eq_some h
      exact ⟨s.output, s, run_succ_halt (step_halt_of_op99 hc hco) 0⟩
  | succ n ih =>
    obtain ⟨hop, hnf⟩ := good 0 s rfl
    rcases hop with h | h | h
    · obtain ⟨c, hc, hco⟩ := curOpcode_eq_some h
      obtain ⟨s', hs, hip, hl⟩ := step_addmul hc (Or.inl hco) hnf
      have good' : GoodRun s' := fun k s'' hk =>
        good (k + 1) s'' (by rw [trace_step hs]; exact hk)
      obtain ⟨out, fin, ho⟩ := ih s' good' (by omega)
      exact ⟨out, fin, by rw [run_succ_next hs]; exact ho⟩
    · obtain ⟨c, hc, hco⟩ := curOpcode_eq_some h
      obtain ⟨s', hs, hip, hl⟩ := step_addmul hc (Or.inr hco) hnf
      have good' : GoodRun s' := fun k s'' hk =>
        good (k + 1) s'' (by rw [trace_step hs]; exact hk)
      obtain ⟨out, fin, ho⟩ := ih s' good' (by omega)
      exact ⟨out, fin, by rw [run_succ_next hs]; exact ho⟩
    · obtain ⟨c, hc, hco⟩ := curOpcode_eq_some h
      exact ⟨s.output, s, run_succ_halt (step_halt_of_op99 hc hco) (n + 1)⟩

lemma trace_snoc (k : Nat) (s0 : State) :
    trace (k + 1) s0 =
      (trace k s0).bind (fun s =>
        match step s with
        | StepRes.next s' => some s'
        | _ => none) := by
  induction k generalizing s0 with
  | zero =>
    cases hs : step s0 with
    | next s' => simp [trace_step hs, trace, hs]
    | halt => simp [trace, hs]
    | fail e => simp [trace, hs]
  | succ k ih =>
    cases hs : step s0 with
    | next s1 =>
      rw [trace_step hs, ih, trace_step hs]
    | halt =>
      have l1 : trace (k + 1 + 1) s0 = none := by unfold trace; rw [hs]
      have l2 : trace (k + 1) s0 = none := by unfold trace; rw [hs]
      rw [l1, l2]
      rfl
    | fail e =>
      have l1 : trace (k + 1 + 1) s0 = none := by unfold trace; rw [hs]
      have l2 : trace (k + 1) s0 = none := by unfold trace; rw [hs]
      rw [l1, l2]
      rfl

lemma toUsize_neg {d : Int} (h0 : -(2 ^ 63) ≤ d) (hneg : d < 0) :
    2 ^ 63 ≤ toUsize d := by
  unfold toUsize
  have e64 : ((2:Int) ^ 64) = 18446744073709551616 := by norm_num
  have e63i : ((2:Int) ^ 63) = 9223372036854775808 := by norm_num
  have e63n : ((2:Nat) ^ 63) = 9223372036854775808 := by norm_num
  rw [e63i] at h0
  rw [e64, e63n]
  omega

lemma execInstr_halt_op {i : Instruction} {s : State}
    (h : execInstr i s = StepRes.halt) : i.opcode = 99 := by
  unfold execInstr at h
  split at h <;> try split at h <;> try split at h <;> try split at h
  all_goals simp_all

lemma step_halt_input {s : State} (h : step s = StepRes.halt) (l : List Int) :
    step { s with input := l } = StepRes.halt := by
  unfold step at h
  split at h
  · next cell heq =>
    have hop : (parse_instruction cell).opcode = 99 := execInstr_halt_op h
    rw [step_eq { s with input := l } cell heq]
    exact execInstr_halt _ _ hop
  · exact StepRes.noConfusion h

lemma step_next_input {s s' : State} (h : step s = StepRes.next s') :
    ∃ c, s.input = c ++ s'.input ∧
      ∀ l, step { s with input := c ++ l } = StepRes.next { s' with input := l } := by
  unfold step at h
  split at h
  case h_2 => exact StepRes.noConfusion h
  case h_1 cell heq =>
  have hstep2 : ∀ t : List Int, step { s with input := t } =
      execInstr (parse_instruction cell) { s with input := t } := fun t =>
    step_eq { s with input := t } cell heq
  revert h
  unfold execInstr
  split <;> intro h
  · rename_i hop
    cases hl1 : lookup s.memory (s.ip + 1) (parse_instruction cell).param1 with
    | none => simp [hl1] at h
    | some p1 =>
      cases hl2 : lookup s.memory (s.ip + 2) (parse_instruction cell).param2 with
      | none => simp [hl1, hl2] at h
      | some p2 =>
        cases hset : Intcode.set s.memory (s.ip + 3) (p1 + p2) with
        | none => simp [hl1, hl2, hset] at h
        | some m =>
          simp only [hl1, hl2, hset, StepRes.next.injEq] at h
          subst h
          refine ⟨[], by simp, fun l => ?_⟩
          rw [hstep2 ([] ++ l), execInstr_one _ _ hop]
          simp [hl1, hl2, hset]
  · rename_i hop
    cases hl1 : lookup s.memory (s.ip + 1) (parse_instruction cell).param1 with
    | none => simp [hl1] at h
    | some p1 =>
      cases hl2 : lookup s.memory (s.ip + 2) (parse_instruction cell).param2 with
      | none => simp [hl1, hl2] at h
      | some p2 =>
        cases hset : Intcode.set s.memory (s.ip + 3) (p1 * p2) with
        | none => simp [hl1, hl2, hset] at h
        | some m =>
          simp only [hl1, hl2, hset, StepRes.next.injEq] at h
          subst h
          refine ⟨[], by simp, fun l => ?_⟩
          rw [hstep2 ([] ++ l), execInstr_two _ _ hop]
          simp [hl1, hl2, hset]
  · rename_i hop
    cases hin : s.input with
    | nil => simp [hin] at h
    | cons a rest =>
      cases hset : Intcode.set s.memory (s.ip + 1) a with
      | none => simp [hin, hset] at h
      | some m =>
        simp only [hin, hset, StepRes.next.injEq] at h
        subst h
        refine ⟨[a], by simp [hin], fun l => ?_⟩
        rw [hstep2 ([a] ++ l), execInstr_three _ _ hop]
        simp [hset]
  · rename_i hop
    cases hl1 : lookup s.memory (s.ip + 1) (parse_instruction cell).param1 with
    | none => simp [hl1] at h
    | some v =>
      simp only [hl1, StepRes.next.injEq] at h
      subst h
      refine ⟨[], by simp, fun l => ?_⟩
      rw [hstep2 ([] ++ l), execInstr_four _ _ hop]
      simp [hl1]
  · rename_i hop
    cases hl1 : lookup s.memory (s.ip + 1) (parse_instruction cell).param1 with
    | none => simp [hl1] at h
    | some p1 =>
      simp only [hl1] at h
      split at h
      · rename_i hp
        cases hl2 : lookup s.memory (s.ip + 2) (parse_instruction cell).param2 with
        | none => simp [hl2] at h
        | some t =>
          simp only [hl2, StepRes.next.injEq] at h
          subst h
          refine ⟨[], by simp, fun l => ?_⟩
          rw [hstep2 ([] ++ l), execInstr_five _ _ hop]
          simp [hl1, hl2, hp]
      · rename_i hp
        simp only [StepRes.next.injEq] at h
        subst h
        refine ⟨[], by simp, fun l => ?_⟩
        rw [hstep2 ([] ++ l), execInstr_five _ _ hop]
        simp [hl1, hp]
  · rename_i hop
    cases hl1 : lookup s.memory (s.ip + 1) (parse_instruction cell).param1 with
    | none => simp [hl1] at h
    | some p1 =>
      simp only [hl1] at h
      split at h
      · rename_i hp
        cases hl2 : lookup s.memory (s.ip + 2) (parse_instruction cell).param2 with
        | none => simp [hl2] at h
        | some t =>
          simp only [hl2, StepRes.next.injEq] at h
          subst h
          refine ⟨[], by simp, fun l => ?_⟩
          rw [hstep2 ([] ++ l), execInstr_six _ _ hop]
          simp [hl1, hl2, hp]
      · rename_i hp
        simp only [StepRes.next.injEq] at h
        subst h
        refine ⟨[], by simp, fun l => ?_⟩
        rw [hstep2 ([] ++ l), execInstr_six _ _ hop]
        simp [hl1, hp]
  · rename_i hop
    cases hl1 : lookup s.memory (s.ip + 1) (parse_instruction cell).param1 with
    | none => simp [hl1] at h
    | some p1 =>
      cases hl2 : lookup s.memory (s.ip + 2) (parse_instruction cell).param2 with
      | none => simp [hl1, hl2] at h
      | some p2 =>
        cases hset : Intcode.set s.memory (s.ip + 3) (if p1 < p2 then 1 else 0) with
        | none => simp [hl1, hl2, hset] at h
        | some m =>
          simp only [hl1, hl2, hset, StepRes.next.injEq] at h
          subst h
          refine ⟨[], by simp, fun l => ?_⟩
          rw [hstep2 ([] ++ l), execInstr_seven _ _ hop]
          simp [hl1, hl2, hset]
  · rename_i hop
    cases hl1 : lookup s.memory (s.ip + 1) (parse_instruction cell).param1 with
    | none => simp [hl1] at h
    | some p1 =>
      cases hl2 : lookup s.memory (s.ip + 2) (parse_instruction cell).param2 with
      | none => simp [hl1, hl2] at h
      | some p2 =>
        cases hset : Intcode.set s.memory (s.ip + 3) (if p1 = p2 then 1 else 0) with
        | none => simp [hl1, hl2, hset] at h
        | some m =>
          simp only [hl1, hl2, hset, StepRes.next.injEq] at h
          subst h
          refine ⟨[], by simp, fun l => ?_⟩
          rw [hstep2 ([] ++ l), execInstr_eight _ _ hop]
          simp [hl1, hl2, hset]
  · exact StepRes.noConfusion h
  · exact StepRes.noConfusion h

end Intcode

open Intcode

/-- C1, counterexample: instruction decoding does NOT compute `v mod 100` and
floored mode digits for negative cell values.  `parse_instruction (-1)` has
opcode `255` (the `u8` wrap of Rust's truncated remainder `-1`), not
`(-1) mod 100 = 99`; and `parse_instruction (-900)` decodes parameter 1 as
positional although `floor(-900 / 100) mod 10 = 1` would mean immediate. -/
theorem claim_C1_counterexample :
    (parse_instruction (-1)).opcode ≠ ((-1 : Int) % 100).toNat ∧
    (parse_instruction (-900)).param1 ≠
      (if ((-900 : Int) / 100) % 10 = 1 then ParameterType.Immediate
       else ParameterType.Position) := by
  decide

/-- C1 (amended): for every NONNEGATIVE raw cell value `v`, decoding yields
opcode `v mod 100` and, for parameter position `i` (1-indexed), the mode given
by digit `(v / 10^(i+1)) mod 10`, where digit 1 means immediate and any other
digit means positional.  Decoding is total (it never fails, also on negative
values), but for negative `v` the decoded opcode and mode digits are the `u8`
wraps of Rust's truncated division/remainder, not the floored formulas. -/
theorem claim_C1 (v : Int) (h : 0 ≤ v) :
    (parse_instruction v).opcode = (v % 100).toNat ∧
    (parse_instruction v).param1 =
      (if (v / 100) % 10 = 1 then ParameterType.Immediate else ParameterType.Position) ∧
    (parse_instruction v).param2 =
      (if (v / 1000) % 10 = 1 then ParameterType.Immediate else ParameterType.Position) ∧
    (parse_instruction v).param3 =
      (if (v / 10000) % 10 = 1 then ParameterType.Immediate else ParameterType.Position) := by
  have digit : ∀ d : Int, 0 < d →
      ParameterType.ofDigit (castU8 ((v.tdiv d).tmod 10)) =
        (if (v / d) % 10 = 1 then ParameterType.Immediate else ParameterType.Position) := by
    intro d hd
    have hvd : (0:Int) ≤ v.tdiv d := Int.tdiv_nonneg h (Int.le_of_lt hd)
    have h10 : ((v.tdiv d).tmod 10) = (v.tdiv d) % 10 :=
      Int.tmod_eq_emod hvd (by decide)
    have hnn : (0:Int) ≤ (v.tdiv d) % 10 := Int.emod_nonneg _ (by decide)
    have hlt : (v.tdiv d) % 10 < 10 := Int.emod_lt_of_pos _ (by decide)
    rw [h10, castU8_eq_toNat hnn (by omega), Int.tdiv_eq_ediv h (Int.le_of_lt hd)]
    unfold ParameterType.ofDigit
    by_cases h1 : (v / d) % 10 = 1
    · rw [if_pos h1, h1]
      rfl
    · have hne : (v / d % 10).toNat ≠ 1 := by omega
      rw [if_neg h1, if_neg hne]
  have hop : castU8 ((v.tdiv 1).tmod 100) = (v % 100).toNat := by
    have h100 : (v.tdiv 1).tmod 100 = v % 100 := by
      rw [Int.tdiv_one, Int.tmod_eq_emod h (by decide)]
    have hnn : (0:Int) ≤ v % 100 := Int.emod_nonneg _ (by decide)
    have hlt : v % 100 < 100 := Int.emod_lt_of_pos _ (by decide)
    rw [h100, castU8_eq_toNat hnn (by omega)]
  exact ⟨hop, digit 100 (by decide), digit 1000 (by decide), digit 10000 (by decide)⟩

/-- Witness for the amended C1, at the concrete cell value 1002 (multiply,
parameter 2 immediate). -/
theorem claim_C1_witness :
    (0:Int) ≤ 1002 ∧
    ((parse_instruction 1002).opcode = ((1002 : Int) % 100).toNat ∧
     (parse_instruction 1002).param1 =
       (if ((1002:Int) / 100) % 10 = 1 then ParameterType.Immediate else ParameterType.Position) ∧
     (parse_instruction 1002).param2 =
       (if ((1002:Int) / 1000) % 10 = 1 then ParameterType.Immediate else ParameterType.Position) ∧
     (parse_instruction 1002).param3 =
       (if ((1002:Int) / 10000) % 10 = 1 then ParameterType.Immediate else ParameterType.Position)) :=
  ⟨by decide, claim_C1 1002 (by decide)⟩

/-- C2: write destinations are always resolved positionally, regardless of the
decoded mode digit of the destination parameter: for the writing opcodes
(1, 2, 7, 8 at parameter 3 and 3 at parameter 1) the mutated cell is the one
whose address is stored in the destination slot, and the decoded
third-parameter mode has no effect on execution at all. -/
theorem claim_C2 :
    (∀ (i j : Instruction) (s : State), i.opcode = j.opcode → i.param1 = j.param1 →
      i.param2 = j.param2 → execInstr i s = execInstr j s) ∧
    (∀ (s s' : State) (c : Int), s.memory[s.ip]? = some c →
      ((parse_instruction c).opcode = 1 ∨ (parse_instruction c).opcode = 2 ∨
       (parse_instruction c).opcode = 7 ∨ (parse_instruction c).opcode = 8) →
      step s = StepRes.next s' →
      ∃ d val, s.memory[s.ip + 3]? = some d ∧
        s'.memory = s.memory.set (toUsize d) val) ∧
    (∀ (s s' : State) (c : Int), s.memory[s.ip]? = some c →
      (parse_instruction c).opcode = 3 →
      step s = StepRes.next s' →
      ∃ d val, s.memory[s.ip + 1]? = some d ∧
        s'.memory = s.memory.set (toUsize d) val) := by
  refine ⟨?_, ?_, ?_⟩
  · rintro ⟨op1, a1, b1, c1⟩ ⟨op2, a2, b2, c2⟩ s h1 h2 h3
    obtain rfl : op1 = op2 := h1
    obtain rfl : a1 = a2 := h2
    obtain rfl : b1 = b2 := h3
    rfl
  · intro s s' c hc hop hstep
    rw [step_eq s c hc] at hstep
    rcases hop with h | h | h | h
    · rw [execInstr_one _ s h] at hstep
      split at hstep
      · split at hstep
        · next m hset =>
          injection hstep with h'
          obtain ⟨d, hd, _, hm⟩ := set_eq_some hset
          exact ⟨d, _, hd, by rw [← h']; exact hm⟩
        · exact StepRes.noConfusion hstep
      · exact StepRes.noConfusion hstep
    · rw [execInstr_two _ s h] at hstep
      split at hstep
      · split at hstep
        · next m hset =>
          injection hstep with h'
          obtain ⟨d, hd, _, hm⟩ := set_eq_some hset
          exact ⟨d, _, hd, by rw [← h']; exact hm⟩
        · exact StepRes.noConfusion hstep
      · exact StepRes.noConfusion hstep
    · rw [execInstr_seven _ s h] at hstep
      split at hstep
      · split at hstep
        · next m hset =>
          injection hstep with h'
          obtain ⟨d, hd, _, hm⟩ := set_eq_some hset
          exact ⟨d, _, hd, by rw [← h']; exact hm⟩
        · exact StepRes.noConfusion hstep
      · exact StepRes.noConfusion hstep
    · rw [execInstr_eight _ s h] at hstep
      split at hstep
      · split at hstep
        · next m hset =>
          injection hstep with h'
          obtain ⟨d, hd, _, hm⟩ := set_eq_some hset
          exact ⟨d, _, hd, by rw [← h']; exact hm⟩
        · exact StepRes.noConfusion hstep
      · exact StepRes.noConfusion hstep
  · intro s s' c hc hop hstep
    rw [step_eq s c hc, execInstr_three _ s hop] at hstep
    split at hstep
    · exact StepRes.noConfusion hstep
    · split at hstep
      · next m hset =>
        injection hstep with h'
        obtain ⟨d, hd, _, hm⟩ := set_eq_some hset
        exact ⟨d, _, hd, by rw [← h']; exact hm⟩
      · exact StepRes.noConfusion hstep

/-- C2 witness: a concrete instance of each conjunct (note `11101` decodes an
immediate mode digit for the destination parameter, still written
positionally). -/
theorem claim_C2_witness :
    execInstr (Instruction.mk 1 ParameterType.Immediate ParameterType.Immediate ParameterType.Immediate)
        (State.mk [11101, 0, 0, 0, 99] 0 [] []) =
      execInstr (Instruction.mk 1 ParameterType.Immediate ParameterType.Immediate ParameterType.Position)
        (State.mk [11101, 0, 0, 0, 99] 0 [] []) ∧
    (∃ (d val : Int), ([1101, 2, 3, 0, 99] : List Int)[3]? = some d ∧
      ([5, 2, 3, 0, 99] : List Int) = List.set [1101, 2, 3, 0, 99] (toUsize d) val) ∧
    (∃ (d val : Int), ([3, 3, 99, 0] : List Int)[1]? = some d ∧
      ([3, 3, 99, 7] : List Int) = List.set [3, 3, 99, 0] (toUsize d) val) :=
  ⟨claim_C2.1 _ _ _ rfl rfl rfl,
   claim_C2.2.1 (State.mk [1101, 2, 3, 0, 99] 0 [] [])
     (State.mk [5, 2, 3, 0, 99] 4 [] []) 1101 (by decide) (Or.inl (by decide)) (by decide),
   claim_C2.2.2 (State.mk [3, 3, 99, 0] 0 [7] [])
     (State.mk [3, 3, 99, 7] 2 [] []) 3 (by decide) (by decide) (by decide)⟩

/-- C3: opcode 5 (jump-if-true) with resolved operands `p1, p2` sets the
instruction pointer to `p2` when `p1 ≠ 0` (the target installed verbatim, a
nonnegative `p2` below `2^64` becoming exactly `p2`), else advances it by 3;
opcode 6 (jump-if-false) symmetrically on `p1 = 0`; no bounds check happens
at the jump itself — an out-of-range instruction pointer only fails at the
next decode attempt. -/
theorem claim_C3 :
    (∀ (s : State) (c p1 : Int), s.memory[s.ip]? = some c →
      (parse_instruction c).opcode = 5 →
      lookup s.memory (s.ip + 1) (parse_instruction c).param1 = some p1 →
      (p1 ≠ 0 → ∀ p2 : Int,
        lookup s.memory (s.ip + 2) (parse_instruction c).param2 = some p2 →
        step s = StepRes.next { s with ip := toUsize p2 }) ∧
      (p1 = 0 → step s = StepRes.next { s with ip := s.ip + 3 })) ∧
    (∀ (s : State) (c p1 : Int), s.memory[s.ip]? = some c →
      (parse_instruction c).opcode = 6 →
      lookup s.memory (s.ip + 1) (parse_instruction c).param1 = some p1 →
      (p1 = 0 → ∀ p2 : Int,
        lookup s.memory (s.ip + 2) (parse_instruction c).param2 = some p2 →
        step s = StepRes.next { s with ip := toUsize p2 }) ∧
      (p1 ≠ 0 → step s = StepRes.next { s with ip := s.ip + 3 })) ∧
    (∀ p2 : Int, 0 ≤ p2 → p2 < 2 ^ 64 → toUsize p2 = p2.toNat) ∧
    (∀ s : State, s.memory.length ≤ s.ip → step s = StepRes.fail Err.outOfBounds) := by
  refine ⟨?_, ?_, ?_, ?_⟩
  · intro s c p1 hc hop hl1
    rw [step_eq s c hc, execInstr_five _ s hop]
    constructor
    · intro hne p2 hl2
      simp only [hl1, hl2, if_pos hne]
    · intro h0
      simp only [hl1, if_neg (not_not_intro h0)]
  · intro s c p1 hc hop hl1
    rw [step_eq s c hc, execInstr_six _ s hop]
    constructor
    · intro h0 p2 hl2
      simp only [hl1, hl2, if_pos h0]
    · intro hne
      simp only [hl1, if_neg hne]
  · intro p2 h0 hlt
    unfold toUsize
    rw [Int.emod_eq_of_lt h0 hlt]
  · intro s h
    exact step_oob s (List.getElem?_eq_none h)

/-- C3 witness: the source's `test_jump_if_true` program `[1005,2,7,2,3,0,3,99]`
at its initial state: `p1 = memory[2] = 7 ≠ 0`, immediate `p2 = 7`, so the
instruction pointer becomes 7. -/
theorem claim_C3_witness :
    step (State.mk [1005, 2, 7, 2, 3, 0, 3, 99] 0 [] []) =
      StepRes.next { State.mk [1005, 2, 7, 2, 3, 0, 3, 99] 0 [] [] with ip := toUsize 7 } :=
  ((claim_C3.1 (State.mk [1005, 2, 7, 2, 3, 0, 3, 99] 0 [] []) 1005 7
      (by decide) (by decide) (by decide)).1 (by decide) 7 (by decide))

/-- C4: on the 47-cell compare-to-8 program of `test_new_instructions`, the
interpreter halts and returns output `[999]` for input `[3]`, `[1000]` for
input `[8]`, and `[1001]` for input `[100]`. -/
theorem claim_C4 :
    runOutput 100 COMPARE_8 [3] = some [999] ∧
    runOutput 100 COMPARE_8 [8] = some [1000] ∧
    runOutput 100 COMPARE_8 [100] = some [1001] :=
  ⟨rfl, rfl, rfl⟩

/-- C5: a run fails with `inputExhausted` if and only if an opcode-3
instruction executes (after some sequence of completed instructions) at a
point where the input sequence is already fully consumed; no other opcode,
and no opcode-3 instruction with input remaining, ever raises it. -/
theorem claim_C5 (s0 : State) :
    (∃ (n : Nat) (sf : State), run n s0 = RunRes.fail Err.inputExhausted sf) ↔
    (∃ (k : Nat) (s : State), trace k s0 = some s ∧
      curOpcode s = some 3 ∧ s.input = []) := by
  constructor
  · rintro ⟨n, sf, h⟩
    induction n generalizing s0 with
    | zero => exact RunRes.noConfusion h
    | succ n ih =>
      rw [run_succ] at h
      cases hs : step s0 with
      | next s' =>
        rw [hs] at h
        obtain ⟨k, s, hk, hop, hin⟩ := ih s' h
        exact ⟨k + 1, s, by rw [trace_step hs]; exact hk, hop, hin⟩
      | halt => rw [hs] at h; exact RunRes.noConfusion h
      | fail e =>
        rw [hs] at h
        injection h with he _
        subst he
        obtain ⟨hop, hin⟩ := (step_fail_inputExhausted s0).mp hs
        exact ⟨0, s0, rfl, hop, hin⟩
  · rintro ⟨k, s, hk, hop, hin⟩
    induction k generalizing s0 with
    | zero =>
      obtain rfl : s0 = s := by injection hk
      have hs : step s0 = StepRes.fail Err.inputExhausted :=
        (step_fail_inputExhausted s0).mpr ⟨hop, hin⟩
      exact ⟨1, s0, run_succ_fail hs 0⟩
    | succ k ih =>
      obtain ⟨s', hs, hk'⟩ := trace_succ_some hk
      obtain ⟨n, sf, hn⟩ := ih s' hk'
      exact ⟨n + 1, sf, by rw [run_succ_next hs]; exact hn⟩

/-- C5 witness: the program `[3,0,99]` with empty input fails with
`inputExhausted` (opcode 3 at the very first instruction, input consumed). -/
theorem claim_C5_witness :
    ∃ (n : Nat) (sf : State),
      run n (State.mk [3, 0, 99] 0 [] []) = RunRes.fail Err.inputExhausted sf :=
  (claim_C5 (State.mk [3, 0, 99] 0 [] [])).mpr
    ⟨0, State.mk [3, 0, 99] 0 [] [], rfl, by decide, rfl⟩

/-- C6: a run that hits a fatal condition stops at the first such condition:
the reported state is reached from the initial state by completed
instructions only (so every mutation applied before the failing instruction
is in the observable final memory), the failing instruction itself changes
nothing (the failing state is returned as is, `step` merely failing on it),
and no further instruction executes (any larger fuel gives the same
result). -/
theorem claim_C6 (fuel : Nat) (s0 sf : State) (e : Err)
    (h : run fuel s0 = RunRes.fail e sf) :
    (∃ k, trace k s0 = some sf ∧ step sf = StepRes.fail e) ∧
    (∀ fuel', fuel ≤ fuel' → run fuel' s0 = RunRes.fail e sf) := by
  induction fuel generalizing s0 with
  | zero => exact RunRes.noConfusion h
  | succ n ih =>
    rw [run_succ] at h
    cases hs : step s0 with
    | next s' =>
      rw [hs] at h
      obtain ⟨⟨k, hk, hsf⟩, hmono⟩ := ih s' h
      refine ⟨⟨k + 1, by rw [trace_step hs]; exact hk, hsf⟩, ?_⟩
      intro fuel' hf
      cases fuel' with
      | zero => omega
      | succ m =>
        rw [run_succ_next hs]
        exact hmono m (by omega)
    | halt => rw [hs] at h; exact RunRes.noConfusion h
    | fail e' =>
      rw [hs] at h
      injection h with he hsf
      subst he
      subst hsf
      refine ⟨⟨0, rfl, hs⟩, ?_⟩
      intro fuel' hf
      cases fuel' with
      | zero => omega
      | succ m => exact run_succ_fail hs m

/-- C6 witness: `[1101,2,3,0,3,0,99]` with empty input: the add instruction
completes (writing 5 to cell 0), then opcode 3 fails with `inputExhausted`;
the failing state keeps the earlier mutation and is stable under more fuel. -/
theorem claim_C6_witness :
    (∃ k, trace k (State.mk [1101, 2, 3, 0, 3, 0, 99] 0 [] []) =
        some (State.mk [5, 2, 3, 0, 3, 0, 99] 4 [] []) ∧
      step (State.mk [5, 2, 3, 0, 3, 0, 99] 4 [] []) =
        StepRes.fail Err.inputExhausted) ∧
    (∀ fuel', 2 ≤ fuel' →
      run fuel' (State.mk [1101, 2, 3, 0, 3, 0, 99] 0 [] []) =
        RunRes.fail Err.inputExhausted (State.mk [5, 2, 3, 0, 3, 0, 99] 4 [] [])) :=
  claim_C6 2 (State.mk [1101, 2, 3, 0, 3, 0, 99] 0 [] [])
    (State.mk [5, 2, 3, 0, 3, 0, 99] 4 [] []) Err.inputExhausted (by decide)

/-- C7: executing an opcode 4 (output), 5 (jump-if-true) or 6 (jump-if-false)
instruction leaves every memory cell, and the remaining input, unchanged;
opcode 4 only appends one value to the output, and the jumps leave the output
unchanged too (only the instruction pointer moves). -/
theorem claim_C7 (s s' : State) (c : Int) (hc : s.memory[s.ip]? = some c)
    (hop : (parse_instruction c).opcode = 4 ∨ (parse_instruction c).opcode = 5 ∨
      (parse_instruction c).opcode = 6)
    (hstep : step s = StepRes.next s') :
    s'.memory = s.memory ∧ s'.input = s.input ∧
    ((parse_instruction c).opcode = 4 → ∃ v, s'.output = s.output ++ [v]) ∧
    ((parse_instruction c).opcode = 5 ∨ (parse_instruction c).opcode = 6 →
      s'.output = s.output) := by
  rcases hop with h | h | h
  · rw [step_eq s c hc, execInstr_four _ s h] at hstep
    split at hstep
    · next v hv =>
      injection hstep with h'
      subst h'
      refine ⟨rfl, rfl, fun _ => ⟨v, rfl⟩, fun h56 => ?_⟩
      rcases h56 with h5 | h6
      · exact absurd (h.symm.trans h5) (by decide)
      · exact absurd (h.symm.trans h6) (by decide)
    · exact StepRes.noConfusion hstep
  · rw [step_eq s c hc, execInstr_five _ s h] at hstep
    split at hstep
    · split at hstep
      · split at hstep
        · injection hstep with h'
          subst h'
          exact ⟨rfl, rfl, fun h4 => absurd (h.symm.trans h4) (by decide), fun _ => rfl⟩
        · exact StepRes.noConfusion hstep
      · injection hstep with h'
        subst h'
        exact ⟨rfl, rfl, fun h4 => absurd (h.symm.trans h4) (by decide), fun _ => rfl⟩
    · exact StepRes.noConfusion hstep
  · rw [step_eq s c hc, execInstr_six _ s h] at hstep
    split at hstep
    · split at hstep
      · split at hstep
        · injection hstep with h'
          subst h'
          exact ⟨rfl, rfl, fun h4 => absurd (h.symm.trans h4) (by decide), fun _ => rfl⟩
        · exact StepRes.noConfusion hstep
      · injection hstep with h'
        subst h'
        exact ⟨rfl, rfl, fun h4 => absurd (h.symm.trans h4) (by decide), fun _ => rfl⟩
    · exact StepRes.noConfusion hstep

/-- C7 witness: the source's `test_print_output` program `[4,2,99]` at its
initial state: memory and input unchanged, output gains one value. -/
theorem claim_C7_witness :
    (State.mk [4, 2, 99] 2 [] [99]).memory = (State.mk [4, 2, 99] 0 [] []).memory ∧
    (State.mk [4, 2, 99] 2 [] [99]).input = (State.mk [4, 2, 99] 0 [] []).input ∧
    ((parse_instruction 4).opcode = 4 →
      ∃ v, (State.mk [4, 2, 99] 2 [] [99]).output = (State.mk [4, 2, 99] 0 [] []).output ++ [v]) ∧
    ((parse_instruction 4).opcode = 5 ∨ (parse_instruction 4).opcode = 6 →
      (State.mk [4, 2, 99] 2 [] [99]).output = (State.mk [4, 2, 99] 0 [] []).output) :=
  claim_C7 (State.mk [4, 2, 99] 0 [] []) (State.mk [4, 2, 99] 2 [] [99]) 4
    (by decide) (Or.inl (by decide)) (by decide)

/-- C8: for every run whose executed instructions use only opcodes 1, 2 and 99
with all resolved addresses in bounds, the instruction pointer strictly
increases at every step (so no loop is possible), and the interpreter (a
deterministic function of the state) halts normally within
`memory length / 4 + 2` fetch-decode-execute steps. -/
theorem claim_C8 (s0 : State) (good : GoodRun s0) :
    (∀ (k : Nat) (s s' : State), trace k s0 = some s →
      trace (k + 1) s0 = some s' → s.ip < s'.ip) ∧
    ∃ out fin, run (s0.memory.length / 4 + 2) s0 = RunRes.ok out fin := by
  constructor
  · intro k s s' hk hk1
    rw [trace_snoc, hk, Option.some_bind] at hk1
    obtain ⟨hop, hnf⟩ := good k s hk
    rcases hop with h | h | h
    · obtain ⟨c, hc, hco⟩ := curOpcode_eq_some h
      obtain ⟨s1, hs, hip, _⟩ := step_addmul hc (Or.inl hco) hnf
      rw [hs] at hk1
      obtain rfl : s1 = s' := by injection hk1
      omega
    · obtain ⟨c, hc, hco⟩ := curOpcode_eq_some h
      obtain ⟨s1, hs, hip, _⟩ := step_addmul hc (Or.inr hco) hnf
      rw [hs] at hk1
      obtain rfl : s1 = s' := by injection hk1
      omega
    · obtain ⟨c, hc, hco⟩ := curOpcode_eq_some h
      rw [step_halt_of_op99 hc hco] at hk1
      exact Option.noConfusion hk1
  · have h : s0.memory.length ≤ s0.ip + 4 * (s0.memory.length / 4 + 1) := by omega
    obtain ⟨out, fin, ho⟩ := run_ok_of_good (s0.memory.length / 4 + 1) s0 good h
    exact ⟨out, fin, ho⟩

/-- C8 witness: the source's `test_addition` program `[1,0,0,0,99]` is a
1/2/99-only program; its run is ip-monotone and halts within the bound. -/
theorem claim_C8_witness :
    (∀ (k : Nat) (s s' : State), trace k (initState [1, 0, 0, 0, 99] []) = some s →
      trace (k + 1) (initState [1, 0, 0, 0, 99] []) = some s' → s.ip < s'.ip) ∧
    ∃ out fin, run ((initState [1, 0, 0, 0, 99] []).memory.length / 4 + 2)
        (initState [1, 0, 0, 0, 99] []) = RunRes.ok out fin := by
  apply claim_C8
  intro k s hk
  rcases k with _ | k
  · injection hk with h
    subst h
    exact ⟨Or.inl (by decide), fun e h => StepRes.noConfusion h⟩
  rcases k with _ | k
  · have hk' : some (State.mk [2, 0, 0, 0, 99] 4 [] []) = some s := hk
    injection hk' with h
    subst h
    exact ⟨Or.inr (Or.inr (by decide)), fun e h => StepRes.noConfusion h⟩
  · exact Option.noConfusion hk

/-- C9: whenever positional resolution (an operand pointer, a write
destination, or a jump target) reads a negative stored value, the access (or
the next decode, for a jump) fails with the out-of-bounds condition: the
`i64`-to-`usize` cast sends a negative value to at least `2^63`, out of range
for any `i64` slice (whose length is at most `2^63`); and every successfully
resolved positional address is below the memory length. -/
theorem claim_C9 :
    (∀ (memory : List Int) (a : Nat) (d v : Int), memory[a]? = some d →
      d < 0 → -(2 ^ 63) ≤ d → memory.length ≤ 2 ^ 63 →
      lookup memory a ParameterType.Position = none ∧ set memory a v = none) ∧
    (∀ (memory : List Int) (a : Nat) (v : Int),
      lookup memory a ParameterType.Position = some v →
      ∃ d, memory[a]? = some d ∧ toUsize d < memory.length) ∧
    (∀ (s : State) (c p1 target : Int), s.memory[s.ip]? = some c →
      (parse_instruction c).opcode = 5 →
      lookup s.memory (s.ip + 1) (parse_instruction c).param1 = some p1 →
      p1 ≠ 0 →
      lookup s.memory (s.ip + 2) (parse_instruction c).param2 = some target →
      target < 0 → -(2 ^ 63) ≤ target → s.memory.length ≤ 2 ^ 63 →
      step s = StepRes.next { s with ip := toUsize target } ∧
      step { s with ip := toUsize target } = StepRes.fail Err.outOfBounds) := by
  refine ⟨?_, ?_, ?_⟩
  · intro memory a d v hd hneg hlo hlen
    have hbig : memory.length ≤ toUsize d := le_trans hlen (toUsize_neg hlo hneg)
    constructor
    · simp only [lookup, hd]
      exact List.getElem?_eq_none hbig
    · unfold Intcode.set
      rw [hd]
      simp only [if_neg (not_lt.mpr hbig)]
  · intro memory a v h
    simp only [lookup] at h
    split at h
    · next d hd => exact ⟨d, hd, lt_of_getElem?_eq_some h⟩
    · exact Option.noConfusion h
  · intro s c p1 target hc hop hl1 hne hl2 hneg hlo hlen
    have hbig : s.memory.length ≤ toUsize target := le_trans hlen (toUsize_neg hlo hneg)
    constructor
    · rw [step_eq s c hc, execInstr_five _ s hop]
      simp only [hl1, hl2, if_pos hne]
    · exact step_oob _ (List.getElem?_eq_none hbig)

/-- C9 witness: concrete instances — a negative pointer in cell 0 of `[-1,0]`
fails both read and write resolution; a successful positional read of `[1,5]`
resolves below the length; and in `[1105,1,-1,99]` the jump-if-true installs
the wrapped negative target, failing with out-of-bounds at the next decode. -/
theorem claim_C9_witness :
    (lookup [-1, 0] 0 ParameterType.Position = none ∧ set [-1, 0] 0 7 = none) ∧
    (∃ d, ([1, 5] : List Int)[0]? = some d ∧ toUsize d < ([1, 5] : List Int).length) ∧
    (step (State.mk [1105, 1, -1, 99] 0 [] []) =
      StepRes.next { State.mk [1105, 1, -1, 99] 0 [] [] with ip := toUsize (-1) } ∧
     step { State.mk [1105, 1, -1, 99] 0 [] [] with ip := toUsize (-1) } =
      StepRes.fail Err.outOfBounds) :=
  ⟨claim_C9.1 [-1, 0] 0 (-1) 7 (by decide) (by norm_num) (by norm_num) (by norm_num),
   claim_C9.2.1 [1, 5] 0 5 (by decide),
   claim_C9.2.2 (State.mk [1105, 1, -1, 99] 0 [] []) 1105 1 (-1)
     (by decide) (by decide) (by decide) (by decide) (by decide)
     (by norm_num) (by norm_num) (by norm_num)⟩

/-- C10: if a run reaches the halt opcode while unconsumed input remains, the
surplus is silently ignored: the run with the surplus removed from the end of
the input (i.e. with exactly the consumed prefix) returns the same output and
the same final state except for an empty remaining-input cursor (in
particular the same final memory). -/
theorem claim_C10 (fuel : Nat) (s0 : State) (out : List Int) (fin : State)
    (h : run fuel s0 = RunRes.ok out fin) :
    ∃ consumed, s0.input = consumed ++ fin.input ∧
      run fuel { s0 with input := consumed } =
        RunRes.ok out { fin with input := [] } := by
  induction fuel generalizing s0 with
  | zero => exact RunRes.noConfusion h
  | succ n ih =>
    rw [run_succ] at h
    cases hs : step s0 with
    | next s' =>
      rw [hs] at h
      obtain ⟨c1, hc1, hstep'⟩ := step_next_input hs
      obtain ⟨c2, hc2, hrun⟩ := ih s' h
      refine ⟨c1 ++ c2, ?_, ?_⟩
      · rw [hc1, hc2, List.append_assoc]
      · rw [run_succ_next (hstep' c2)]
        exact hrun
    | halt =>
      rw [hs] at h
      injection h with ho hf
      subst ho
      subst hf
      refine ⟨[], (List.nil_append _).symm, ?_⟩
      rw [run_succ_halt (step_halt_input hs []) n]
    | fail e =>
      rw [hs] at h
      exact RunRes.noConfusion h

/-- C10 witness: the source's `test_exit` scenario `[99]` with surplus input
`[1]`: the run halts immediately, and removing the unconsumed `[1]` gives the
same output and final memory. -/
theorem claim_C10_witness :
    ∃ consumed,
      (State.mk [99] 0 [1] []).input = consumed ++ (State.mk [99] 0 [1] []).input ∧
      run 1 { State.mk [99] 0 [1] [] with input := consumed } =
        RunRes.ok [] { State.mk [99] 0 [1] [] with input := [] } :=
  claim_C10 1 (State.mk [99] 0 [1] []) [] (State.mk [99] 0 [1] []) (by decide)
